import Mathlib

/-!
Shallow embedding of the decision/learning core of the `moard-recsys-engine`
repository, together with proofs checking its natural-language specification.

Embedded sources:
  * `src/components/agents/dqn_agent.py` (class `DQNAgent`)
  * `src/components/simulation/llm_response_handler.py` (class `LLMResponseHandler`)

Modelling conventions:
  * Python floats are modelled as rationals (`ℚ`); the claims under study are
    structural (which values are combined where), not about rounding.
  * The value estimator (`QNetwork`), its parameters, and the optimizer are
    external collaborators; they are abstracted as type parameters `P` (network
    parameters), `O` (optimizer state) together with an evaluation function
    `ev : P → S → E → ℚ` and a gradient-update function `upd : O → P → ℚ → O × P`.
    `S` is the type of user-state vectors, `E` the type of content embeddings.
  * Python `dict`s that the source iterates in insertion order are modelled as
    association lists (`List (String × _)`).
  * Random sampling from the replay buffer is externalized: `learn` receives the
    sampled batch as an argument (the sample is drawn before any state other
    than the step counter is touched, and no claim depends on its distribution).
-/

namespace DQNAgent

/-- One experience record as pushed by `DQNAgent.store`:
`(user_state, content_emb, reward, (next_state, next_cands_embs), done)`. -/
structure Experience (S E : Type) where
  user_state : S
  content_emb : E
  reward : ℚ
  next_state : S
  next_cands_embs : List (String × List E)
  done : Bool

/-- The mutable state of a `DQNAgent` instance: live network parameters
(`q_net`), target network parameters (`target_q_net`), optimizer state, the
scalar hyper-parameters set in `__init__`, the step counter, and the replay
buffer contents. -/
structure AgentState (P O S E : Type) where
  q_net : P
  target_q_net : P
  optimizer : O
  gamma : ℚ
  batch_size : ℕ
  epsilon : ℚ
  epsilon_min : ℚ
  epsilon_dec : ℚ
  update_freq : ℕ
  step_count : ℕ
  loss_type : String
  buffer : List (Experience S E)

/-- Source `decay_epsilon`: `self.epsilon = max(self.epsilon * self.epsilon_dec, self.epsilon_min)`. -/
def decay_epsilon (s : AgentState P O S E) : AgentState P O S E :=
  { s with epsilon := max (s.epsilon * s.epsilon_dec) s.epsilon_min }

/-- Iterate `n` successive calls of `decay_epsilon`. -/
def decayIter : ℕ → AgentState P O S E → AgentState P O S E
  | 0, s => s
  | n + 1, s => decayIter n (decay_epsilon s)

/-- Source `chain.from_iterable(nxt.values())`: all next-candidate embeddings of one
record, across all content types, in dict-value order. -/
def nextEmbs (e : Experience S E) : List E :=
  (e.next_cands_embs.map Prod.snd).flatten

/-- The loop in `learn` that builds `flat_states` / `flat_cands` /
`batch_indices`: starting at record index `i`, each record contributes one
`(next_state, candidate, record-index)` triple per next-candidate. -/
def flatNextFrom (i : ℕ) : List (Experience S E) → List (S × E × ℕ)
  | [] => []
  | e :: rest =>
      (nextEmbs e).map (fun c => (e.next_state, c, i)) ++ flatNextFrom (i + 1) rest

/-- The flat work list of `learn`, built from record index 0. -/
def flatNext (batch : List (Experience S E)) : List (S × E × ℕ) :=
  flatNextFrom 0 batch

/-- Maximum of a list of rationals, `0` on the empty list.  Models
`sample_qs.max() if len(sample_qs) > 0 else 0.0` (the `numpy` max is only
taken on non-empty lists in the source). -/
def listMax : List ℚ → ℚ
  | [] => 0
  | [q] => q
  | q :: r :: rest => max q (listMax (r :: rest))

/-- Boolean-mask selection `q_flat[batch_indices == i]` on a list of
`(value, record-index)` pairs. -/
def sampleQsAt (pairs : List (ℚ × ℕ)) (i : ℕ) : List ℚ :=
  pairs.filterMap (fun p => if p.2 = i then some p.1 else none)

/-- The per-record `max_nq` column of `learn`: evaluate the target network once
over the whole flat work list, then re-segment by carried record index; a
record with an empty segment gets `0.0`; if the flat list is empty the whole
column is zeros. -/
def maxNqList (ev : P → S → E → ℚ) (tp : P) (batch : List (Experience S E)) : List ℚ :=
  let flat := flatNext batch
  if flat.isEmpty then
    List.replicate batch.length 0
  else
    let qFlat := flat.map (fun t => ev tp t.1 t.2.1)
    let tags := flat.map (fun t => t.2.2)
    (List.range batch.length).map (fun i => listMax (sampleQsAt (qFlat.zip tags) i))

/-- Python truthiness of `done` as used in the tensor `ds`. -/
def doneFlag (b : Bool) : ℚ := if b then 1 else 0

/-- The batched bootstrap targets `target = rs + self.gamma * max_nq * (1 - ds)`. -/
def computeTargets (ev : P → S → E → ℚ) (tp : P) (gamma : ℚ)
    (batch : List (Experience S E)) : List ℚ :=
  (batch.zip (maxNqList ev tp batch)).map
    (fun p => p.1.reward + gamma * p.2 * (1 - doneFlag p.1.done))

/-- Specification-side per-record quantity: the maximum target-network value
over exactly this record's own next-candidates paired with its own next state,
`0` when the record has no next-candidates. -/
def recordMaxNext (ev : P → S → E → ℚ) (tp : P) (e : Experience S E) : ℚ :=
  listMax ((nextEmbs e).map (ev tp e.next_state))

/-- Specification-side per-record bootstrap target
`reward + gamma * recordMaxNext * (1 - done)`. -/
def recordTarget (ev : P → S → E → ℚ) (tp : P) (gamma : ℚ) (e : Experience S E) : ℚ :=
  e.reward + gamma * recordMaxNext ev tp e * (1 - doneFlag e.done)

end DQNAgent

namespace DQNAgent

/-- Tagged `(value, record-index)` pairs: the zip of `q_flat` with
`batch_indices` when flattening starts at record index `k`. -/
def taggedPairs (ev : P → S → E → ℚ) (tp : P) (k : ℕ)
    (batch : List (Experience S E)) : List (ℚ × ℕ) :=
  (flatNextFrom k batch).map (fun t => (ev tp t.1 t.2.1, t.2.2))

theorem taggedPairs_nil (ev : P → S → E → ℚ) (tp : P) (k : ℕ) :
    taggedPairs ev tp k ([] : List (Experience S E)) = [] := rfl

theorem taggedPairs_cons (ev : P → S → E → ℚ) (tp : P) (k : ℕ)
    (e : Experience S E) (rest : List (Experience S E)) :
    taggedPairs ev tp k (e :: rest) =
      ((nextEmbs e).map (fun c => (ev tp e.next_state c, k))) ++ taggedPairs ev tp (k + 1) rest := by
  simp [taggedPairs, flatNextFrom, List.map_append, List.map_map, Function.comp]

theorem sampleQsAt_append (xs ys : List (ℚ × ℕ)) (i : ℕ) :
    sampleQsAt (xs ++ ys) i = sampleQsAt xs i ++ sampleQsAt ys i := by
  simp [sampleQsAt]

theorem sampleQsAt_block (l : List ℚ) (k i : ℕ) :
    sampleQsAt (l.map (fun q => (q, k))) i = if k = i then l else [] := by
  simp only [sampleQsAt, List.filterMap_map, Function.comp_def]
  by_cases hk : k = i
  · subst hk; simp
  · simp [hk]

theorem sampleQsAt_taggedPairs_lt (ev : P → S → E → ℚ) (tp : P) :
    ∀ (batch : List (Experience S E)) (k i : ℕ), i < k →
      sampleQsAt (taggedPairs ev tp k batch) i = []
  | [], k, i, _ => by simp [taggedPairs_nil, sampleQsAt]
  | e :: rest, k, i, h => by
    rw [taggedPairs_cons, sampleQsAt_append]
    have hm : (nextEmbs e).map (fun c => (ev tp e.next_state c, k)) =
        ((nextEmbs e).map (ev tp e.next_state)).map (fun q => (q, k)) := by
      simp [List.map_map, Function.comp]
    have h1 : sampleQsAt ((nextEmbs e).map (fun c => (ev tp e.next_state c, k))) i = [] := by
      rw [hm, sampleQsAt_block]
      simp [Nat.ne_of_gt h]
    rw [h1, sampleQsAt_taggedPairs_lt ev tp rest (k + 1) i (Nat.lt_succ_of_lt h)]
    simp

theorem sampleQsAt_taggedPairs_cons (ev : P → S → E → ℚ) (tp : P)
    (e : Experience S E) (rest : List (Experience S E)) (k i : ℕ) :
    sampleQsAt (taggedPairs ev tp k (e :: rest)) i =
      (if k = i then (nextEmbs e).map (ev tp e.next_state) else []) ++
        sampleQsAt (taggedPairs ev tp (k + 1) rest) i := by
  have hm : (nextEmbs e).map (fun c => (ev tp e.next_state c, k)) =
      ((nextEmbs e).map (ev tp e.next_state)).map (fun q => (q, k)) := by
    simp [List.map_map, Function.comp]
  rw [taggedPairs_cons, sampleQsAt_append, hm, sampleQsAt_block]

theorem maxNqSegment (ev : P → S → E → ℚ) (tp : P) :
    ∀ (batch : List (Experience S E)) (k : ℕ),
      (List.range' k batch.length).map
          (fun i => listMax (sampleQsAt (taggedPairs ev tp k batch) i)) =
        batch.map (recordMaxNext ev tp)
  | [], _ => by simp
  | e :: rest, k => by
    show List.map _ (List.range' k (rest.length + 1)) = _
    rw [List.range'_succ]
    simp only [List.map_cons]
    congr 1
    · rw [sampleQsAt_taggedPairs_cons, if_pos rfl,
        sampleQsAt_taggedPairs_lt ev tp rest (k + 1) k (Nat.lt_succ_self k)]
      simp [recordMaxNext]
    · have hfun : ∀ i ∈ List.range' (k + 1) rest.length,
          listMax (sampleQsAt (taggedPairs ev tp k (e :: rest)) i) =
            listMax (sampleQsAt (taggedPairs ev tp (k + 1) rest) i) := by
        intro i hi
        obtain ⟨j, _, rfl⟩ := List.mem_range'.mp hi
        rw [sampleQsAt_taggedPairs_cons, if_neg (by omega)]
        simp
      rw [List.map_congr_left hfun, maxNqSegment ev tp rest (k + 1)]

theorem flatNextFrom_nil_forall :
    ∀ (batch : List (Experience S E)) (k : ℕ), flatNextFrom k batch = [] →
      ∀ e ∈ batch, nextEmbs e = []
  | [], _, _ => by simp
  | e :: rest, k, h => by
    rw [flatNextFrom, List.append_eq_nil] at h
    intro x hx
    rcases List.mem_cons.mp hx with hx | hx
    · subst hx
      exact List.map_eq_nil_iff.mp h.1
    · exact flatNextFrom_nil_forall rest (k + 1) h.2 x hx

theorem zip_replicate_map (l : List α) (c : β) (f : α × β → γ) :
    (l.zip (List.replicate l.length c)).map f = l.map (fun a => f (a, c)) := by
  induction l with
  | nil => rfl
  | cons x xs ih => simp [List.replicate_succ, ih]

theorem zip_map_self (l : List α) (g : α → β) (f : α × β → γ) :
    (l.zip (l.map g)).map f = l.map (fun a => f (a, g a)) := by
  induction l with
  | nil => rfl
  | cons x xs ih => simp [ih]

theorem maxNqList_eq (ev : P → S → E → ℚ) (tp : P) (batch : List (Experience S E)) :
    maxNqList ev tp batch = batch.map (recordMaxNext ev tp) := by
  simp only [maxNqList]
  by_cases hempty : (flatNext batch).isEmpty
  · rw [if_pos hempty]
    have hall : ∀ e ∈ batch, nextEmbs e = [] :=
      flatNextFrom_nil_forall batch 0 (List.isEmpty_iff.mp hempty)
    have : batch.map (recordMaxNext ev tp) = batch.map (fun _ => 0) := by
      apply List.map_congr_left
      intro e he
      simp [recordMaxNext, hall e he, listMax]
    rw [this, List.map_const']
  · rw [if_neg hempty]
    have hzip : ((flatNext batch).map (fun t => ev tp t.1 t.2.1)).zip
          ((flatNext batch).map (fun t => t.2.2)) = taggedPairs ev tp 0 batch := by
      rw [List.zip_map']
      rfl
    rw [hzip, List.range_eq_range']
    exact maxNqSegment ev tp batch 0

/-- C1: for every sampled batch, the batched target computation produces, for
each record, `reward + gamma * maxNext * (1 - done)` where `maxNext` is the
maximum target-network value over exactly that record's own next-candidates
paired with its own next state (0 when it has none); in particular a batch in
which every record has an empty next-candidate group yields the plain rewards
as targets, with no error. -/
theorem learn_targets_per_record (ev : P → S → E → ℚ) (tp : P) (gamma : ℚ)
    (batch : List (Experience S E)) :
    computeTargets ev tp gamma batch = batch.map (recordTarget ev tp gamma) ∧
      ((∀ e ∈ batch, nextEmbs e = []) →
        computeTargets ev tp gamma batch = batch.map (fun e => e.reward)) := by
  have hmain : computeTargets ev tp gamma batch = batch.map (recordTarget ev tp gamma) := by
    rw [computeTargets, maxNqList_eq, zip_map_self]
    rfl
  refine ⟨hmain, fun hall => ?_⟩
  rw [hmain]
  apply List.map_congr_left
  intro e he
  simp [recordTarget, recordMaxNext, hall e he, listMax]

/-- Concrete evaluation function used in witnesses: a candidate embedding (a
single rational here) is its own value, whatever the parameters and state. -/
def evVal : ℚ → ℚ → ℚ → ℚ := fun _ _ e => e

/-- Concrete batch for the all-empty-next-candidates edge case: one non-terminal
and one terminal record, neither with any next candidate. -/
def batchAllEmpty : List (Experience ℚ ℚ) :=
  [{ user_state := 0, content_emb := 0, reward := 1, next_state := 0,
     next_cands_embs := [], done := false },
   { user_state := 0, content_emb := 0, reward := 2, next_state := 0,
     next_cands_embs := [("youtube", [])], done := true }]

/-- Witness for C1 at a concrete batch whose records all have empty
next-candidate groups: the targets are exactly the rewards. -/
theorem learn_targets_per_record_witness :
    computeTargets evVal 0 (9 / 10) batchAllEmpty = [1, 2] := by
  have h := (learn_targets_per_record evVal 0 (9 / 10) batchAllEmpty).2 (by decide)
  rw [h]
  rfl

theorem decayIter_epsilon_min (n : ℕ) :
    ∀ s : AgentState P O S E, (decayIter n s).epsilon_min = s.epsilon_min := by
  induction n with
  | zero => intro s; rfl
  | succ n ih => intro s; rw [decayIter, ih]; rfl

theorem decayIter_epsilon_dec (n : ℕ) :
    ∀ s : AgentState P O S E, (decayIter n s).epsilon_dec = s.epsilon_dec := by
  induction n with
  | zero => intro s; rfl
  | succ n ih => intro s; rw [decayIter, ih]; rfl

theorem decayIter_floor (n : ℕ) :
    ∀ s : AgentState P O S E, s.epsilon_min ≤ (decayIter (n + 1) s).epsilon := by
  induction n with
  | zero => intro s; exact le_max_right _ _
  | succ n ih =>
    intro s
    have h := ih (decay_epsilon s)
    rw [show (decay_epsilon s).epsilon_min = s.epsilon_min from rfl] at h
    exact h

theorem decayIter_antitone (n : ℕ) :
    ∀ s : AgentState P O S E, 0 ≤ s.epsilon_dec → s.epsilon_dec ≤ 1 →
      0 ≤ s.epsilon_min → s.epsilon_min ≤ s.epsilon →
      (decayIter (n + 1) s).epsilon ≤ (decayIter n s).epsilon := by
  induction n with
  | zero =>
    intro s _ hdec1 hmin0 hstart
    have heps0 : 0 ≤ s.epsilon := le_trans hmin0 hstart
    exact max_le (mul_le_of_le_one_right heps0 hdec1) hstart
  | succ n ih =>
    intro s hdec0 hdec1 hmin0 hstart
    have h := ih (decay_epsilon s) hdec0 hdec1 hmin0 (le_max_right _ _)
    exact h

/-- Agent state witnessing that `decay_epsilon` can increase epsilon when the
starting epsilon lies below the floor. -/
def agentBelowFloor : AgentState Unit Unit Unit Unit :=
  { q_net := (), target_q_net := (), optimizer := (), gamma := 99 / 100,
    batch_size := 32, epsilon := 0, epsilon_min := 1 / 2,
    epsilon_dec := 1, update_freq := 10, step_count := 0,
    loss_type := "mse", buffer := [] }

/-- C3 counterexample: with starting epsilon 0 below the floor 1/2, a single
`decay_epsilon()` call raises epsilon from 0 to 1/2, so for an arbitrary
starting epsilon the sequence of epsilons is not non-increasing. -/
theorem decay_epsilon_increases_below_floor :
    agentBelowFloor.epsilon = 0 ∧
      (decay_epsilon agentBelowFloor).epsilon = 1 / 2 ∧
      ¬ (decay_epsilon agentBelowFloor).epsilon ≤ agentBelowFloor.epsilon := by
  have h2 : (decay_epsilon agentBelowFloor).epsilon = 1 / 2 := by
    show max ((0 : ℚ) * 1) (1 / 2) = 1 / 2
    rw [zero_mul]
    exact max_eq_right one_half_pos.le
  refine ⟨rfl, h2, ?_⟩
  rw [h2]
  show ¬ (1 / 2 : ℚ) ≤ 0
  exact not_le.mpr one_half_pos

/-- C3 (amended): each `decay_epsilon()` call sets epsilon to
`max(epsilon * epsilon_dec, epsilon_min)`, and after every call
`epsilon ≥ epsilon_min` holds; provided `0 ≤ epsilon_dec ≤ 1` and the starting
epsilon is at least `epsilon_min ≥ 0` (the spec invariant
`0 ≤ epsilon_min ≤ epsilon`), epsilon is non-increasing across any finite
sequence of calls. -/
theorem decay_epsilon_floor_antitone (s : AgentState P O S E) (n : ℕ)
    (hdec0 : 0 ≤ s.epsilon_dec) (hdec1 : s.epsilon_dec ≤ 1)
    (hmin0 : 0 ≤ s.epsilon_min) (hstart : s.epsilon_min ≤ s.epsilon) :
    (decay_epsilon s).epsilon = max (s.epsilon * s.epsilon_dec) s.epsilon_min ∧
      s.epsilon_min ≤ (decayIter (n + 1) s).epsilon ∧
      (decayIter (n + 1) s).epsilon ≤ (decayIter n s).epsilon :=
  ⟨rfl, decayIter_floor n s, decayIter_antitone n s hdec0 hdec1 hmin0 hstart⟩

/-- Agent state satisfying the spec invariant `0 ≤ epsilon_min ≤ epsilon ≤ 1`,
used to witness the amended C3. -/
def agentAboveFloor : AgentState Unit Unit Unit Unit :=
  { agentBelowFloor with epsilon := 1, epsilon_min := 0, epsilon_dec := 1 / 2 }

/-- Witness for the amended C3 at a concrete agent and two decay calls. -/
theorem decay_epsilon_floor_antitone_witness :
    (0 ≤ agentAboveFloor.epsilon_dec ∧ agentAboveFloor.epsilon_dec ≤ 1 ∧
        0 ≤ agentAboveFloor.epsilon_min ∧
        agentAboveFloor.epsilon_min ≤ agentAboveFloor.epsilon) ∧
      (decay_epsilon agentAboveFloor).epsilon =
        max (agentAboveFloor.epsilon * agentAboveFloor.epsilon_dec)
          agentAboveFloor.epsilon_min ∧
      agentAboveFloor.epsilon_min ≤ (decayIter 2 agentAboveFloor).epsilon ∧
      (decayIter 2 agentAboveFloor).epsilon ≤ (decayIter 1 agentAboveFloor).epsilon :=
  ⟨⟨one_half_pos.le, one_half_lt_one.le, le_refl 0, zero_le_one⟩,
    decay_epsilon_floor_antitone agentAboveFloor 1 one_half_pos.le one_half_lt_one.le
      (le_refl 0) zero_le_one⟩

/-- A saved checkpoint blob, as written by `DQNAgent.save`.  The network and
optimizer entries are accessed with `checkpoint[...]` in `load` (required: a
missing key raises), while the scalar entries are read with
`checkpoint.get(key, default)` and are therefore optional. -/
structure Checkpoint (P O : Type) where
  q_net_state : P
  target_net_state : P
  optimizer_state : O
  step_count : Option ℕ
  epsilon : Option ℚ
  epsilon_min : Option ℚ
  epsilon_dec : Option ℚ

/-- Source `DQNAgent.load`: restore the networks, optimizer and scalars from a
checkpoint.  `step_count` falls back to the literal `0`
(`checkpoint.get("step_count", 0)`); the three epsilon scalars fall back to the
agent's current in-memory values (`checkpoint.get("epsilon", self.epsilon)`
etc.). -/
def load (s : AgentState P O S E) (c : Checkpoint P O) : AgentState P O S E :=
  { s with
    q_net := c.q_net_state
    target_q_net := c.target_net_state
    optimizer := c.optimizer_state
    step_count := c.step_count.getD 0
    epsilon := c.epsilon.getD s.epsilon
    epsilon_min := c.epsilon_min.getD s.epsilon_min
    epsilon_dec := c.epsilon_dec.getD s.epsilon_dec }

/-- Agent with a non-zero in-memory step counter, used against a checkpoint
that lacks the step counter entry. -/
def agentStep5 : AgentState Unit Unit Unit Unit :=
  { agentBelowFloor with step_count := 5 }

/-- A checkpoint blob missing every optional scalar entry. -/
def ckptNoScalars : Checkpoint Unit Unit :=
  { q_net_state := (), target_net_state := (), optimizer_state := (),
    step_count := none, epsilon := none, epsilon_min := none, epsilon_dec := none }

/-- C2 counterexample: loading a checkpoint whose blob is missing the step
counter resets `step_count` to the constant default 0, not to the agent's
pre-load in-memory value 5, so that attribute does not stay unchanged. -/
theorem load_missing_step_count_resets :
    agentStep5.step_count = 5 ∧
      (load agentStep5 ckptNoScalars).step_count = 0 ∧
      (load agentStep5 ckptNoScalars).step_count ≠ agentStep5.step_count := by
  refine ⟨rfl, rfl, ?_⟩
  decide

/-- C2 (amended): loading a checkpoint with missing optional fields does not
fail; a missing `epsilon`, `epsilon_min` or `epsilon_dec` falls back to the
agent's current in-memory value, leaving that attribute unchanged, while a
missing `step_count` falls back to the constant default `0` (the initial
value), overwriting the pre-load value. -/
theorem load_missing_fields_fallback (s : AgentState P O S E) (c : Checkpoint P O)
    (h0 : c.step_count = none) (h1 : c.epsilon = none)
    (h2 : c.epsilon_min = none) (h3 : c.epsilon_dec = none) :
    (load s c).step_count = 0 ∧
      (load s c).epsilon = s.epsilon ∧
      (load s c).epsilon_min = s.epsilon_min ∧
      (load s c).epsilon_dec = s.epsilon_dec := by
  simp [load, h0, h1, h2, h3]

/-- Witness for the amended C2 at a concrete agent and checkpoint. -/
theorem load_missing_fields_fallback_witness :
    (ckptNoScalars.step_count = none ∧ ckptNoScalars.epsilon = none ∧
        ckptNoScalars.epsilon_min = none ∧ ckptNoScalars.epsilon_dec = none) ∧
      (load agentStep5 ckptNoScalars).step_count = 0 ∧
      (load agentStep5 ckptNoScalars).epsilon = agentStep5.epsilon ∧
      (load agentStep5 ckptNoScalars).epsilon_min = agentStep5.epsilon_min ∧
      (load agentStep5 ckptNoScalars).epsilon_dec = agentStep5.epsilon_dec :=
  ⟨⟨rfl, rfl, rfl, rfl⟩,
    load_missing_fields_fallback agentStep5 ckptNoScalars rfl rfl rfl rfl⟩

/-- Source `F.mse_loss(q_sa, target)`: mean squared difference over the batch. -/
def mse_loss (preds targets : List ℚ) : ℚ :=
  ((preds.zip targets).map (fun p => (p.1 - p.2) ^ 2)).sum / (preds.length : ℚ)

/-- Source `F.smooth_l1_loss(q_sa, target)` with the default `beta = 1`: mean of the
elementwise Huber-style branch. -/
def smooth_l1_loss (preds targets : List ℚ) : ℚ :=
  ((preds.zip targets).map (fun p =>
      if |p.1 - p.2| < 1 then (p.1 - p.2) ^ 2 / 2 else |p.1 - p.2| - 1 / 2)).sum /
    (preds.length : ℚ)

/-- The loss-kind dispatch of `learn`: `mse` and `smooth_l1` are supported, any
other selector is a fatal configuration error (`ValueError` in the source). -/
def lossValue (loss_type : String) (preds targets : List ℚ) : Option ℚ :=
  if loss_type = "mse" then some (mse_loss preds targets)
  else if loss_type = "smooth_l1" then some (smooth_l1_loss preds targets)
  else none

/-- Source `DQNAgent.learn`, with the sampled batch passed in explicitly and the
gradient step abstracted by `upd` (its input is the scalar loss, standing in
for the gradients; its output is the new optimizer state and live parameters).
The result pairs an `Except` (the `ValueError` of an unsupported `loss_type`
is `Except.error`; the Korean message of the source is transliterated) with the
post-call agent state: Python mutations performed before a `raise` stay
visible, so the error case returns the state with the already-incremented step
counter. -/
def learn (ev : P → S → E → ℚ) (upd : O → P → ℚ → O × P)
    (batch : List (Experience S E)) (s : AgentState P O S E) :
    Except String (Option ℚ) × AgentState P O S E :=
  if s.buffer.length < s.batch_size then
    (Except.ok none, s)
  else
    let s1 := { s with step_count := s.step_count + 1 }
    let q_sa := batch.map (fun e => ev s1.q_net e.user_state e.content_emb)
    let target := computeTargets ev s1.target_q_net s1.gamma batch
    match lossValue s1.loss_type q_sa target with
    | none => (Except.error ("Unsupported loss_type: " ++ s1.loss_type), s1)
    | some lossVal =>
        let op := upd s1.optimizer s1.q_net lossVal
        let s2 := { s1 with optimizer := op.1, q_net := op.2 }
        let s3 :=
          if s2.step_count % s2.update_freq = 0 then
            { s2 with target_q_net := s2.q_net }
          else s2
        (Except.ok (some lossVal), s3)

/-- C5: when the replay buffer holds fewer than `batch_size` records, `learn`
returns the no-op signal `None` and leaves the whole agent state — step
counter, epsilon, live and target parameters, optimizer state, buffer —
unchanged; this is not an error. -/
theorem learn_noop_below_batch_size (ev : P → S → E → ℚ) (upd : O → P → ℚ → O × P)
    (batch : List (Experience S E)) (s : AgentState P O S E)
    (h : s.buffer.length < s.batch_size) :
    learn ev upd batch s = (Except.ok none, s) := by
  simp [learn, h]

/-- Concrete experience record over rational scalars, used by the learn
witnesses. -/
def expW : Experience ℚ ℚ :=
  { user_state := 0, content_emb := 1, reward := 2, next_state := 0,
    next_cands_embs := [("youtube", [3])], done := false }

/-- Concrete agent over rational parameter/state/embedding types used by the
learn witnesses: batch size 1, one buffered record, sync period 1. -/
def agentW : AgentState ℚ ℚ ℚ ℚ :=
  { q_net := 0, target_q_net := 0, optimizer := 0, gamma := 1,
    batch_size := 1, epsilon := 1, epsilon_min := 0, epsilon_dec := 1,
    update_freq := 1, step_count := 0, loss_type := "mse", buffer := [expW] }

/-- Concrete gradient update for witnesses: leaves parameters and optimizer
state untouched (its value is irrelevant to the properties being witnessed). -/
def updW : ℚ → ℚ → ℚ → ℚ × ℚ := fun o p _ => (o, p)

/-- Agent below batch size: same as `agentW` but with an empty buffer. -/
def agentWEmpty : AgentState ℚ ℚ ℚ ℚ := { agentW with buffer := [] }

/-- Witness for C5 at a concrete agent whose buffer is empty. -/
theorem learn_noop_below_batch_size_witness :
    agentWEmpty.buffer.length < agentWEmpty.batch_size ∧
      learn evVal updW [] agentWEmpty = (Except.ok none, agentWEmpty) :=
  ⟨by decide, learn_noop_below_batch_size evVal updW [] agentWEmpty (by decide)⟩

/-- C4: after a successful learn-step (buffer at batch size, supported loss
kind), the target network parameters equal the live parameters exactly when the
incremented step counter is a multiple of `update_freq` (hard copy), and are
left at their previous value otherwise — live updates never leak into the
target network between syncs. -/
theorem learn_target_sync (ev : P → S → E → ℚ) (upd : O → P → ℚ → O × P)
    (batch : List (Experience S E)) (s : AgentState P O S E)
    (hb : ¬ s.buffer.length < s.batch_size)
    (hl : s.loss_type = "mse" ∨ s.loss_type = "smooth_l1")
    (hf : 0 < s.update_freq) :
    (learn ev upd batch s).2.target_q_net =
      if (s.step_count + 1) % s.update_freq = 0 then (learn ev upd batch s).2.q_net
      else s.target_q_net := by
  rcases hl with hl | hl <;>
    · simp only [learn, hb, if_false, lossValue, hl]
      by_cases hmod : (s.step_count + 1) % s.update_freq = 0 <;>
        simp [hmod, hl]

/-- Witness for C4: with step counter 0 and sync period 1, the step counter
after the learn-step (1) is a multiple of the period, so target equals live. -/
theorem learn_target_sync_witness :
    (¬ agentW.buffer.length < agentW.batch_size) ∧
      (agentW.loss_type = "mse" ∨ agentW.loss_type = "smooth_l1") ∧
      0 < agentW.update_freq ∧
      (learn evVal updW [expW] agentW).2.target_q_net =
        (if (agentW.step_count + 1) % agentW.update_freq = 0 then
          (learn evVal updW [expW] agentW).2.q_net
        else agentW.target_q_net) :=
  ⟨by decide, Or.inl rfl, by decide,
    learn_target_sync evVal updW [expW] agentW (by decide) (Or.inl rfl) (by decide)⟩

/-- C8: with the replay buffer at or above batch size, the learn-step raises
the unsupported-loss-kind configuration error exactly when the selector is
outside {"mse", "smooth_l1"}; with a supported selector it completes without
that error.  (The source performs no check at construction, so learn time is
where the fail-fast check happens.) -/
theorem learn_loss_type_error_iff (ev : P → S → E → ℚ) (upd : O → P → ℚ → O × P)
    (batch : List (Experience S E)) (s : AgentState P O S E)
    (hb : ¬ s.buffer.length < s.batch_size) :
    (learn ev upd batch s).1 =
        Except.error ("Unsupported loss_type: " ++ s.loss_type) ↔
      (s.loss_type ≠ "mse" ∧ s.loss_type ≠ "smooth_l1") := by
  by_cases h1 : s.loss_type = "mse"
  · simp [learn, hb, lossValue, h1]
  · by_cases h2 : s.loss_type = "smooth_l1"
    · simp [learn, hb, lossValue, h1, h2]
    · simp [learn, hb, lossValue, h1, h2]

/-- Agent identical to `agentW` but configured with an unsupported loss kind. -/
def agentWBadLoss : AgentState ℚ ℚ ℚ ℚ := { agentW with loss_type := "huber" }

/-- Witness for C8: the concrete agent with loss kind "huber" makes the
learn-step produce the configuration error. -/
theorem learn_loss_type_error_iff_witness :
    (¬ agentWBadLoss.buffer.length < agentWBadLoss.batch_size) ∧
      (learn evVal updW [expW] agentWBadLoss).1 =
        Except.error ("Unsupported loss_type: " ++ agentWBadLoss.loss_type) :=
  ⟨by decide,
    (learn_loss_type_error_iff evVal updW [expW] agentWBadLoss (by decide)).mpr
      ⟨by decide, by decide⟩⟩

/-- C10: when the learn-step raises the unsupported-loss-kind error (buffer at
or above batch size, unsupported selector), the agent state visible after the
raise already has the step counter incremented by one — and nothing else
changed — so the failing call is not atomic. -/
theorem learn_error_not_atomic (ev : P → S → E → ℚ) (upd : O → P → ℚ → O × P)
    (batch : List (Experience S E)) (s : AgentState P O S E)
    (hb : ¬ s.buffer.length < s.batch_size)
    (h1 : s.loss_type ≠ "mse") (h2 : s.loss_type ≠ "smooth_l1") :
    (learn ev upd batch s).1 =
        Except.error ("Unsupported loss_type: " ++ s.loss_type) ∧
      (learn ev upd batch s).2 = { s with step_count := s.step_count + 1 } := by
  constructor <;> simp [learn, hb, lossValue, h1, h2]

/-- Witness for C10 at the concrete agent with loss kind "huber": the call
errors and the returned state has step counter 1 = 0 + 1. -/
theorem learn_error_not_atomic_witness :
    (¬ agentWBadLoss.buffer.length < agentWBadLoss.batch_size) ∧
      (learn evVal updW [expW] agentWBadLoss).1 =
        Except.error ("Unsupported loss_type: " ++ agentWBadLoss.loss_type) ∧
      (learn evVal updW [expW] agentWBadLoss).2 =
        { agentWBadLoss with step_count := agentWBadLoss.step_count + 1 } :=
  ⟨by decide,
    learn_error_not_atomic evVal updW [expW] agentWBadLoss (by decide)
      (by decide) (by decide)⟩

theorem le_listMax : ∀ (l : List ℚ) (x : ℚ), x ∈ l → x ≤ listMax l
  | [], x, hx => absurd hx (List.not_mem_nil x)
  | [q], x, hx => by
      rcases List.mem_singleton.mp hx with rfl
      exact le_refl _
  | q :: r :: rest, x, hx => by
      rcases List.mem_cons.mp hx with rfl | hx
      · exact le_max_left _ _
      · exact le_trans (le_listMax (r :: rest) x hx) (le_max_right _ _)

theorem listMax_mem : ∀ (l : List ℚ), l ≠ [] → listMax l ∈ l
  | [], h => absurd rfl h
  | [_], _ => List.mem_singleton_self _
  | q :: r :: rest, _ => by
      rcases max_choice q (listMax (r :: rest)) with h | h
      · rw [show listMax (q :: r :: rest) = max q (listMax (r :: rest)) from rfl, h]
        exact List.mem_cons_self _ _
      · rw [show listMax (q :: r :: rest) = max q (listMax (r :: rest)) from rfl, h]
        exact List.mem_cons_of_mem _ (listMax_mem (r :: rest) (by simp))

/-- Source `int(torch.argmax(q_vals).item())`: index of the first occurrence of the
maximum value (`torch.argmax` returns the index of the first maximal value). -/
def argmaxIdx (qs : List ℚ) : ℕ :=
  qs.findIdx (fun q => decide (listMax qs ≤ q))

/-- Exploitation branch of `select_action` (lines 100-105; taken with certainty
when epsilon = 0, since `random.random() < 0` is false): evaluate the live
network once per candidate against the fixed state — abstracted here as the
per-candidate value function `qfun` — and return the argmax index. -/
def select_action_exploit (qfun : E → ℚ) (candidate_embs : List E) : ℕ :=
  argmaxIdx (candidate_embs.map qfun)

/-- C7: on a non-empty candidate list, exploitation returns an index within
[0, number of candidates) whose value is maximal, and every earlier index has a
strictly smaller value (ties are broken by the first-encountered index). -/
theorem select_action_exploit_argmax (qfun : E → ℚ) (candidate_embs : List E)
    (h : candidate_embs ≠ []) :
    select_action_exploit qfun candidate_embs < candidate_embs.length ∧
      (∀ j, j < candidate_embs.length →
        (candidate_embs.map qfun).getD j 0 ≤
          (candidate_embs.map qfun).getD (select_action_exploit qfun candidate_embs) 0) ∧
      (∀ j, j < select_action_exploit qfun candidate_embs →
        (candidate_embs.map qfun).getD j 0 <
          (candidate_embs.map qfun).getD (select_action_exploit qfun candidate_embs) 0) := by
  have hqs : candidate_embs.map qfun ≠ [] := by
    simpa using h
  have hex : ∃ x ∈ candidate_embs.map qfun,
      decide (listMax (candidate_embs.map qfun) ≤ x) = true :=
    ⟨listMax (candidate_embs.map qfun), listMax_mem _ hqs, by simp⟩
  have hlt : select_action_exploit qfun candidate_embs < (candidate_embs.map qfun).length :=
    List.findIdx_lt_length_of_exists hex
  have hlen : (candidate_embs.map qfun).length = candidate_embs.length :=
    List.length_map _ _
  have hidx : (candidate_embs.map qfun).getD (select_action_exploit qfun candidate_embs) 0 =
      (candidate_embs.map qfun).get ⟨select_action_exploit qfun candidate_embs, hlt⟩ := by
    simp [List.getD_eq_getElem?_getD, List.getElem?_eq_getElem hlt]
  have hmax : listMax (candidate_embs.map qfun) ≤
      (candidate_embs.map qfun).get ⟨select_action_exploit qfun candidate_embs, hlt⟩ := by
    have := List.findIdx_getElem (w := hlt)
    exact of_decide_eq_true this
  refine ⟨hlen ▸ hlt, ?_, ?_⟩
  · intro j hj
    have hj' : j < (candidate_embs.map qfun).length := hlen ▸ hj
    have hjv : (candidate_embs.map qfun).getD j 0 =
        (candidate_embs.map qfun).get ⟨j, hj'⟩ := by
      simp [List.getD_eq_getElem?_getD, List.getElem?_eq_getElem hj']
    rw [hjv, hidx]
    exact le_trans (le_listMax _ _ (List.get_mem _ _ hj')) hmax
  · intro j hj
    have hj' : j < (candidate_embs.map qfun).length :=
      lt_of_lt_of_le hj (le_of_lt hlt)
    have hjv : (candidate_embs.map qfun).getD j 0 =
        (candidate_embs.map qfun).get ⟨j, hj'⟩ := by
      simp [List.getD_eq_getElem?_getD, List.getElem?_eq_getElem hj']
    have hnot := List.not_of_lt_findIdx hj
    simp only [decide_eq_false_iff_not] at hnot
    have hlt2 : (candidate_embs.map qfun).get ⟨j, hj'⟩ < listMax (candidate_embs.map qfun) :=
      not_le.mp hnot
    rw [hjv, hidx]
    exact lt_of_lt_of_le hlt2 hmax

/-- Witness for C7: candidates with values [2, 5, 5] select index 1 (the first
maximal value), which is within bounds, maximal, and strictly above index 0. -/
theorem select_action_exploit_argmax_witness :
    ([(2 : ℚ), 5, 5] ≠ []) ∧
      (select_action_exploit (fun e : ℚ => e) [2, 5, 5] < [(2 : ℚ), 5, 5].length ∧
        (∀ j, j < [(2 : ℚ), 5, 5].length →
          ([(2 : ℚ), 5, 5].map (fun e : ℚ => e)).getD j 0 ≤
            ([(2 : ℚ), 5, 5].map (fun e : ℚ => e)).getD
              (select_action_exploit (fun e : ℚ => e) [2, 5, 5]) 0) ∧
        (∀ j, j < select_action_exploit (fun e : ℚ => e) [2, 5, 5] →
          ([(2 : ℚ), 5, 5].map (fun e : ℚ => e)).getD j 0 <
            ([(2 : ℚ), 5, 5].map (fun e : ℚ => e)).getD
              (select_action_exploit (fun e : ℚ => e) [2, 5, 5]) 0)) :=
  ⟨by decide, select_action_exploit_argmax (fun e : ℚ => e) [2, 5, 5] (by decide)⟩

/-- The `(identifier, value)` list built by the exploitation loop of
`select_slate` (lines 242-259): for each `(ctype, embs)` entry of the candidate
dict in insertion order, one `((ctype, i), q)` pair per candidate, `i` being
the in-type index.  (An empty `embs` is skipped by `continue` in the source and
contributes nothing here either.)  The live network evaluated against the fixed
repeated state is abstracted as the per-candidate value function `qfun`. -/
def slateQValues (qfun : E → ℚ) (candidate_embs : List (String × List E)) :
    List ((String × ℕ) × ℚ) :=
  (candidate_embs.map
    (fun te => (te.2.map qfun).enum.map (fun p => ((te.1, p.1), p.2)))).flatten

/-- The comparison of `q_values_with_pos.sort(key=lambda x: x[1], reverse=True)`:
`x` may come before `y` exactly when `y`'s value does not exceed `x`'s.  Python's
sort is stable; the stable `mergeSort` with this relation models it. -/
def slateLE (x y : (String × ℕ) × ℚ) : Bool := decide (y.2 ≤ x.2)

/-- Exploitation branch of `select_slate` (taken with certainty when
epsilon = 0): sort all `(identifier, value)` pairs descending by value with a
stable sort and return the first `max_recs` identifiers. -/
def select_slate_exploit (qfun : E → ℚ) (candidate_embs : List (String × List E))
    (max_recs : ℕ) : List (String × ℕ) :=
  (((slateQValues qfun candidate_embs).mergeSort slateLE).take max_recs).map Prod.fst

/-- Total number of candidates across all content types. -/
def totalCandidates (candidate_embs : List (String × List E)) : ℕ :=
  (candidate_embs.map (fun te => te.2.length)).sum

theorem slateLE_trans (a b c : (String × ℕ) × ℚ) :
    slateLE a b → slateLE b c → slateLE a c := by
  simp only [slateLE, decide_eq_true_eq]
  exact fun h1 h2 => le_trans h2 h1

theorem slateLE_total (a b : (String × ℕ) × ℚ) : slateLE a b || slateLE b a := by
  simp only [slateLE, Bool.or_eq_true, decide_eq_true_eq]
  exact (le_total b.2 a.2)

theorem slateQValues_length (qfun : E → ℚ) (candidate_embs : List (String × List E)) :
    (slateQValues qfun candidate_embs).length = totalCandidates candidate_embs := by
  simp only [slateQValues, totalCandidates, List.length_flatten, List.map_map]
  refine congrArg List.sum (List.map_congr_left ?_)
  intro te _
  simp [List.enum_length]

/-- Candidate dict of the spec's P5 example: type "A" with values 0.2 and 0.5,
type "B" with value 0.9. -/
def slateCands : List (String × List ℚ) := [("A", [1 / 5, 1 / 2]), ("B", [9 / 10])]

/-- C6: exploitation-mode `select_slate` computes one value per (type, index)
candidate, stable-sorts all (identifier, value) pairs descending by value, and
returns the top `min(k, total_candidates)` identifiers in ranked order; ties
keep their original flatten order (stability).  Concretely, with candidate
values {A: [0.2, 0.5], B: [0.9]} and k = 2 it returns [(B, 0), (A, 1)].
The first conjunct is the concrete P5 instance; the second is the returned
length; the third is the descending ranked order; the fourth is stability. -/
theorem select_slate_exploit_spec :
    select_slate_exploit (fun e : ℚ => e) slateCands 2 = [("B", 0), ("A", 1)] ∧
      (∀ (E : Type) (qfun : E → ℚ) (cands : List (String × List E)) (k : ℕ),
        (select_slate_exploit qfun cands k).length = min k (totalCandidates cands)) ∧
      (∀ (E : Type) (qfun : E → ℚ) (cands : List (String × List E)) (k : ℕ),
        (((slateQValues qfun cands).mergeSort slateLE).take k).Pairwise
          (fun x y => y.2 ≤ x.2)) ∧
      (∀ (E : Type) (qfun : E → ℚ) (cands : List (String × List E))
          (x y : (String × ℕ) × ℚ),
        [x, y].Sublist (slateQValues qfun cands) → y.2 ≤ x.2 →
          [x, y].Sublist ((slateQValues qfun cands).mergeSort slateLE)) := by
  refine ⟨?_, ?_, ?_, ?_⟩
  · have h : slateQValues (fun e : ℚ => e) slateCands =
        [(("A", 0), 1 / 5), (("A", 1), 1 / 2), (("B", 0), 9 / 10)] := rfl
    rw [select_slate_exploit, h]
    norm_num [List.mergeSort, List.merge, slateLE]
  · intro E qfun cands k
    simp [select_slate_exploit, List.length_take, slateQValues_length]
  · intro E qfun cands k
    have hs : ((slateQValues qfun cands).mergeSort slateLE).Pairwise
        (fun x y => slateLE x y) :=
      List.sorted_mergeSort slateLE_trans slateLE_total (slateQValues qfun cands)
    have ht : (((slateQValues qfun cands).mergeSort slateLE).take k).Pairwise
        (fun x y => slateLE x y) :=
      hs.sublist (List.take_sublist k _)
    exact ht.imp (fun h => of_decide_eq_true h)
  · intro E qfun cands x y hsub hval
    exact List.pair_sublist_mergeSort slateLE_trans slateLE_total
      (by simpa [slateLE] using hval) hsub

/-- Candidate dict with a value tie inside one type, used to witness the
stability conjunct of C6. -/
def tieCands : List (String × List ℚ) := [("A", [1, 1])]

/-- Witness for C6: the two tied pairs of `tieCands` stay in original flatten
order through the sort. -/
theorem select_slate_exploit_spec_witness :
    [((("A", 0), (1 : ℚ)), (("A", 1), (1 : ℚ))).1,
        ((("A", 0), (1 : ℚ)), (("A", 1), (1 : ℚ))).2].Sublist
        (slateQValues (fun e : ℚ => e) tieCands) ∧
      ((("A", 1), (1 : ℚ)).2 ≤ (("A", 0), (1 : ℚ)).2) ∧
      [(("A", 0), (1 : ℚ)), (("A", 1), (1 : ℚ))].Sublist
        ((slateQValues (fun e : ℚ => e) tieCands).mergeSort slateLE) :=
  ⟨List.Sublist.refl _, le_refl _,
    select_slate_exploit_spec.2.2.2 ℚ (fun e => e) tieCands (("A", 0), 1) (("A", 1), 1)
      (List.Sublist.refl _) (le_refl _)⟩

end DQNAgent

namespace LLMResponseHandler

/-- One parsed JSON element of the LLM response list.  JSON values are modelled
as typed-or-absent: `content_id = none` stands for a missing key (or a value
`int()` cannot convert — both raise in the source), `clicked = none` for a
missing or non-boolean value (both coerced to `False` by the source), and the
two dwell fields use `none` for a missing key (a non-numeric value is coerced
to `0` like a negative one). -/
inductive Response where
  | notDict : Response
  | dict (content_id : Option Int) (clicked : Option Bool)
      (dwell_time_seconds : Option Int) (dwell_time : Option Int) : Response

/-- One entry of the result list of `_extract_all_content_responses`. -/
structure ContentResponse where
  content_id : Int
  clicked : Bool
  dwell_time : Int
deriving DecidableEq

/-- Source `_parse_single_response_for_all`: coerce `clicked` to a boolean, pick
`dwell_time_seconds` over `dwell_time` over `0`, clamp negative dwell to 0, and
zero the dwell when not clicked. -/
def parseSingle (clicked : Option Bool) (dts dt : Option Int) : Bool × Int :=
  let c := clicked.getD false
  let d0 := dts.getD (dt.getD 0)
  let d1 := if d0 < 0 then 0 else d0
  let d2 := if ¬ c ∧ 0 < d1 then 0 else d1
  (c, d2)

/-- The main loop of `_extract_all_content_responses` over
`enumerate(responses)`, with `i` the running index.  A non-dict response yields
a positional default entry; a dict response has `int(resp.get("content_id"))`
evaluated first — `Except.error` models the `TypeError`/`ValueError` this
raises when the key is missing or not convertible — and is then matched purely
by position: `content_id = content_ids[i]` whenever `i` is in range, the parsed
response being skipped (`continue`) otherwise. -/
def extractLoop (content_ids : List Int) : ℕ → List Response → Except Unit (List ContentResponse)
  | _, [] => Except.ok []
  | i, Response.notDict :: rest =>
      match extractLoop content_ids (i + 1) rest with
      | Except.error e => Except.error e
      | Except.ok res =>
          Except.ok
            ((if i < content_ids.length then
                [{ content_id := content_ids.getD i 0, clicked := false, dwell_time := 0 }]
              else []) ++ res)
  | i, Response.dict cid clicked dts dt :: rest =>
      match cid with
      | none => Except.error ()
      | some _ =>
          if i < content_ids.length then
            match extractLoop content_ids (i + 1) rest with
            | Except.error e => Except.error e
            | Except.ok res =>
                Except.ok
                  ({ content_id := content_ids.getD i 0,
                     clicked := (parseSingle clicked dts dt).1,
                     dwell_time := (parseSingle clicked dts dt).2 } :: res)
          else extractLoop content_ids (i + 1) rest

/-- Source `_extract_all_content_responses` (without the leading underscore of the
Python name): run the positional-matching loop, then append a default entry for
every recommended content id not covered by the result. -/
def extract_all_content_responses (responses : List Response)
    (content_ids : List Int) : Except Unit (List ContentResponse) :=
  match extractLoop content_ids 0 responses with
  | Except.error e => Except.error e
  | Except.ok res =>
      let covered := res.map (fun r => r.content_id)
      Except.ok
        (res ++ (content_ids.filter (fun cid => !(covered.contains cid))).map
          (fun cid => { content_id := cid, clicked := false, dwell_time := 0 }))

/-- Does a response carry a convertible content id (or fall in the non-dict
branch, which never reads one)? -/
def hasContentId : Response → Bool
  | Response.notDict => true
  | Response.dict cid _ _ _ => cid.isSome

/-- C9 counterexample: a single-element response list whose dict response lacks
`content_id` passes the count check (1 response, 1 content) yet the extraction
raises (`int(None)` is a `TypeError`) instead of producing an output entry
carrying the first recommended content id. -/
theorem extract_missing_content_id_raises :
    [Response.dict none none none none].length = [(7 : Int)].length ∧
      extract_all_content_responses [Response.dict none none none none] [(7 : Int)] =
        Except.error () :=
  ⟨rfl, rfl⟩

theorem extractLoop_ids :
    ∀ (responses : List Response) (content_ids : List Int) (i : ℕ),
      i + responses.length = content_ids.length →
      (∀ r ∈ responses, hasContentId r) →
      ∃ res, extractLoop content_ids i responses = Except.ok res ∧
        res.map (fun r => r.content_id) = content_ids.drop i
  | [], content_ids, i, hlen, _ => by
    simp only [List.length_nil] at hlen
    refine ⟨[], rfl, ?_⟩
    rw [List.drop_eq_nil_of_le (by omega)]
    rfl
  | Response.notDict :: rest, content_ids, i, hlen, hcid => by
    have hi : i < content_ids.length := by
      simp only [List.length_cons] at hlen
      omega
    obtain ⟨res, hres, hmap⟩ :=
      extractLoop_ids rest content_ids (i + 1) (by simp at hlen ⊢; omega)
        (fun r hr => hcid r (List.mem_cons_of_mem _ hr))
    have hstep : extractLoop content_ids i (Response.notDict :: rest) =
        Except.ok ((if i < content_ids.length then
            [{ content_id := content_ids.getD i 0, clicked := false,
               dwell_time := 0 }]
          else []) ++ res) := by
      simp only [extractLoop, hres]
    refine ⟨_, hstep, ?_⟩
    rw [if_pos hi]
    have hgetD : content_ids.getD i 0 = content_ids[i] := by
      simp [List.getD_eq_getElem?_getD, List.getElem?_eq_getElem hi]
    simp only [List.map_append, List.map_cons, List.map_nil, hmap, hgetD]
    rw [List.drop_eq_getElem_cons hi]
    rfl
  | Response.dict cid clicked dts dt :: rest, content_ids, i, hlen, hcid => by
    have hsome : cid.isSome := hcid _ (List.mem_cons_self _ _)
    obtain ⟨v, rfl⟩ := Option.isSome_iff_exists.mp hsome
    have hi : i < content_ids.length := by
      simp only [List.length_cons] at hlen
      omega
    obtain ⟨res, hres, hmap⟩ :=
      extractLoop_ids rest content_ids (i + 1) (by simp at hlen ⊢; omega)
        (fun r hr => hcid r (List.mem_cons_of_mem _ hr))
    have hstep : extractLoop content_ids i (Response.dict (some v) clicked dts dt :: rest) =
        Except.ok ({ content_id := content_ids.getD i 0,
                     clicked := (parseSingle clicked dts dt).1,
                     dwell_time := (parseSingle clicked dts dt).2 } :: res) := by
      simp only [extractLoop, hi, if_true, hres]
    refine ⟨_, hstep, ?_⟩
    have hgetD : content_ids.getD i 0 = content_ids[i] := by
      simp [List.getD_eq_getElem?_getD, List.getElem?_eq_getElem hi]
    simp only [List.map_cons, hmap, hgetD]
    rw [List.drop_eq_getElem_cons hi]

/-- C9 (amended): for every response list that passes the count check and in
which every dict response does carry a convertible `content_id`, the extraction
succeeds and the output entry at position `i` carries the id of the `i`-th
recommended content — the response's own `content_id` value is ignored and
matching is silently positional; a response with a missing `content_id`
instead raises a `TypeError` inside this function (see the counterexample). -/
theorem extract_matches_by_index (responses : List Response) (content_ids : List Int)
    (hlen : responses.length = content_ids.length)
    (hcid : ∀ r ∈ responses, hasContentId r) :
    ∃ out, extract_all_content_responses responses content_ids = Except.ok out ∧
      out.map (fun r => r.content_id) = content_ids := by
  obtain ⟨res, hres, hmap⟩ :=
    extractLoop_ids responses content_ids 0 (by omega) hcid
  have hdrop : content_ids.drop 0 = content_ids := List.drop_zero _
  rw [hdrop] at hmap
  have hfilter :
      content_ids.filter (fun cid => !((res.map (fun r => r.content_id)).contains cid)) = [] := by
    rw [List.filter_eq_nil_iff]
    intro a ha
    rw [hmap]
    simp only [List.contains, List.elem_eq_true_of_mem ha, Bool.not_true]
    exact fun h => Bool.false_ne_true h
  refine ⟨res, ?_, hmap⟩
  rw [extract_all_content_responses, hres]
  simp only [hfilter, List.map_nil, List.append_nil]

/-- Concrete inputs for the C9 witness: two responses, the first carrying the
wrong content id 99, against recommended ids [7, 8]. -/
def respsW : List Response :=
  [Response.dict (some 99) (some true) (some 120) none, Response.notDict]

/-- Witness for the amended C9 at `respsW` against ids [7, 8]. -/
theorem extract_matches_by_index_witness :
    respsW.length = [(7 : Int), 8].length ∧
      (∀ r ∈ respsW, hasContentId r) ∧
      ∃ out, extract_all_content_responses respsW [(7 : Int), 8] = Except.ok out ∧
        out.map (fun r => r.content_id) = [(7 : Int), 8] :=
  ⟨rfl, by decide, extract_matches_by_index respsW [(7 : Int), 8] rfl (by decide)⟩
